import Mathlib

/-
Verification of the spanviz rendering core (src/spanviz/main.py) against its
natural-language specification.  The Python functions are shallowly embedded:
dynamic values become the `PyVal` type, generators become explicit lists,
the in-place mutation performed by `standardize_spans` is returned as the
post-call state of its input, and float arithmetic in `colorblend` is
modelled by exact rationals (`PyRat`).
-/

namespace Spanviz

/-- Model of the Python values that can appear in a raw span record:
integers, strings, dicts (association lists keyed by strings, preserving
insertion order) and lists. -/
inductive PyVal where
  | int (n : Int)
  | str (s : String)
  | dict (fields : List (String × PyVal))
  | list (items : List PyVal)

/-- Python dict assignment `d[k] = v`: replaces the value in place if the
key exists, otherwise appends the new entry at the end. -/
def dictSet (d : List (String × PyVal)) (k : String) (v : PyVal) :
    List (String × PyVal) :=
  if (d.lookup k).isSome then d.map (fun p => if p.1 = k then (k, v) else p)
  else d ++ [(k, v)]

/-- Python `str(...)` on values used as labels: exact for ints and strings
(the only label values the repository's data model produces); container
values get a placeholder repr, on which no claim depends. -/
def pyStr : PyVal → String
  | .int n => toString n
  | .str s => s
  | .dict _ => "<dict>"
  | .list _ => "<list>"

/-- Python dict literal `{'label': v, **sd}` (main.py lines 124 and 127):
starts from the single `label` entry and lets the unpacked dict override
it — later keys win, so a subspan carrying its own `label` key replaces
the freshly computed string. -/
def pyMergeLabel (v : PyVal) (sd : List (String × PyVal)) :
    List (String × PyVal) :=
  sd.foldl (fun acc p => dictSet acc p.1 p.2) [("label", v)]

/-- One subspan of a group: `{'label': str(subspan.get('label', dflt)), **subspan}`;
a non-dict subspan raises (Python `AttributeError` on `.get`). -/
def subspanToDict (dflt : PyVal) : PyVal → Except String PyVal
  | .dict sd =>
      .ok (.dict (pyMergeLabel (.str (pyStr ((sd.lookup "label").getD dflt))) sd))
  | _ => .error "AttributeError: object has no attribute get"

/-- Whether the first char list is a prefix of the second. -/
def startsWithChars : List Char → List Char → Bool
  | [], _ => true
  | _ :: _, [] => false
  | a :: as, b :: bs => a == b && startsWithChars as bs

/-- Python substring containment, as tested by `'start' in span` when the
element is a string. -/
def containsChars (pat : List Char) : List Char → Bool
  | [] => pat.isEmpty
  | c :: rest => startsWithChars pat (c :: rest) || containsChars pat rest

/-- Iterating a `subspans` value with `for subspan in ...`: a list maps
each element through `subspanToDict`; an empty string or empty dict
iterates zero times and yields nothing; any other value raises when
iterated (or when `.get` is called on its items). -/
def iterSubspans (dflt : PyVal) : PyVal → Except String (List PyVal)
  | .list subs => subs.mapM (subspanToDict dflt)
  | .str s =>
      if s.data.isEmpty then .ok []
      else .error "AttributeError: str object has no attribute get"
  | .dict d2 =>
      if d2.isEmpty then .ok []
      else .error "AttributeError: str object has no attribute get"
  | .int _ => .error "TypeError: int object is not iterable"

/-- Normalisation of the n-th raw element (main.py lines 116–127).  Returns
the post-call state of the element (direct span dicts are mutated in place
by `span['label'] = str(span.get('label', n))`) together with the list of
canonical dicts it yields.  Shapes the code cannot handle become the
Python exception the interpreter would raise; empty iterables (the empty
string, or an empty `subspans` value) iterate zero times and are accepted
silently, yielding nothing. -/
def standardizeOne (n : Nat) (span : PyVal) : Except String (PyVal × List PyVal) :=
  match span with
  | .dict d =>
    if (d.lookup "start").isSome then
      let d2 := dictSet d "label" (.str (pyStr ((d.lookup "label").getD (.int n))))
      .ok (.dict d2, [.dict d2])
    else
      match d.lookup "subspans" with
      | some v => do
          let outs ← iterSubspans (.str (pyStr ((d.lookup "label").getD (.int n)))) v
          .ok (.dict d, outs)
      | none => .error "KeyError: subspans"
  | .list items =>
      if items.any (fun v => match v with | .str s => s == "start" | _ => false) then
        .error "TypeError: list indices must be integers"
      else do
        let outs ← items.mapM (subspanToDict (.int n))
        .ok (.list items, outs)
  | .int _ => .error "TypeError: argument of type int is not iterable"
  | .str s =>
      if containsChars "start".data s.data then
        .error "TypeError: str object does not support item assignment"
      else if s.data.isEmpty then .ok (.str s, [])
      else .error "AttributeError: str object has no attribute get"

/-- The enumerated loop of `standardize_spans`, starting at index n. -/
def standardizeFrom (n : Nat) : List PyVal → Except String (List PyVal × List PyVal)
  | [] => .ok ([], [])
  | span :: rest => do
      let one ← standardizeOne n span
      let more ← standardizeFrom (n + 1) rest
      .ok (one.1 :: more.1, one.2 ++ more.2)

/-- `standardize_spans` (main.py lines 111–127), consumed as a whole list
the way `render_spans` does with `list(standardize_spans(spans))`.  The
first component is the post-call state of the input list, the second the
flat list of canonical span dicts; an unrecognised element aborts the
whole record with an error. -/
def standardize_spans (spans : List PyVal) : Except String (List PyVal × List PyVal) :=
  standardizeFrom 0 spans

/-- The in-place effect `standardize_spans` has on the n-th input element:
a dict with a `start` key gets its `label` field set to the coerced
string; everything else is left untouched. -/
def mutateOne (n : Nat) (v : PyVal) : PyVal :=
  match v with
  | .dict d =>
    if (d.lookup "start").isSome then
      .dict (dictSet d "label" (.str (pyStr ((d.lookup "label").getD (.int n)))))
    else v
  | _ => v

/-- Elementwise post-call state of the raw span list. -/
def enumMutate (n : Nat) : List PyVal → List PyVal
  | [] => []
  | v :: rest => mutateOne n v :: enumMutate (n + 1) rest

/-- The fields of a dict other than `label`; non-dicts unchanged.  Used to
express that the normaliser's mutation touches only the `label` field. -/
def nonLabelFields : PyVal → PyVal
  | .dict d => .dict (d.filter (fun p => !(p.1 == "label")))
  | v => v

/-- The three raw shapes the normaliser recognises: an object with a
`start` key, an object with a `subspans` key, or a plain sequence. -/
def recognizedShape : PyVal → Bool
  | .dict d => (d.lookup "start").isSome || (d.lookup "subspans").isSome
  | .list _ => true
  | _ => false

/-- A canonical span: a labelled half-open character range. -/
structure Span where
  start : Nat
  «end» : Nat
  label : String
deriving DecidableEq

/-- Typed view of a canonical span dict, reading the fields the renderer
accesses (`span['start']`, `span['end']`, `span['label']`); a missing or
non-integer field is the lookup failure Python would raise when the
renderer touches it. -/
def toSpan (v : PyVal) : Except String Span :=
  match v with
  | .dict d =>
    match d.lookup "start", d.lookup "end", d.lookup "label" with
    | some (.int s), some (.int e), some lab => .ok ⟨s.toNat, e.toNat, pyStr lab⟩
    | _, _, _ => .error "KeyError: missing span field"
  | _ => .error "TypeError: span is not a dict"

/-- The fixed palette, `list(colors.values())` of matplotlib's tab10
(main.py lines 12–23). -/
def tab10 : List String :=
  ["#1f77b4", "#ff7f0e", "#2ca02c", "#d62728", "#9467bd",
   "#8c564b", "#e377c2", "#7f7f7f", "#bcbd22", "#17becf"]

/-- Lexicographic comparison of char lists by code point, the order Python
uses to sort strings. -/
def charListLe : List Char → List Char → Bool
  | [], _ => true
  | _ :: _, [] => false
  | a :: as, b :: bs =>
    if a.toNat < b.toNat then true
    else if b.toNat < a.toNat then false
    else charListLe as bs

/-- Python string comparison `a <= b`. -/
def strLe (a b : String) : Bool := charListLe a.data b.data

/-- `sorted(set(span['label'] for span in spans))` (main.py line 54): the
distinct labels in lexicographic order. -/
def sortedLabels (spans : List Span) : List String :=
  List.insertionSort (fun a b => strLe a b = true) ((spans.map Span.label).dedup)

/-- The loop body of `update_colormap` (main.py lines 55–56): a label not
yet in the map is appended with the palette color at index
`len(colormap) % len(colors)` taken at insertion time. -/
def cmStep (cm : List (String × String)) (lab : String) : List (String × String) :=
  if (cm.lookup lab).isSome then cm
  else cm ++ [(lab, tab10.getD (cm.length % tab10.length) "")]

/-- `update_colormap` (main.py lines 53–58): visit the distinct labels in
sorted order, inserting each missing one via `cmStep`. -/
def update_colormap (colormap : List (String × String)) (spans : List Span) :
    List (String × String) :=
  (sortedLabels spans).foldl cmStep colormap

/-- The boundary set `{0, len(text)} ∪ {span['start'], span['end']}` as a
sorted duplicate-free list (main.py lines 75–80). -/
def boundaries (text : String) (spans : List Span) : List Nat :=
  List.insertionSort (· ≤ ·)
    ((0 :: text.length :: spans.foldr (fun sp acc => sp.start :: sp.«end» :: acc) []).dedup)

/-- `zip(starts_and_ends, starts_and_ends[1:])` (main.py line 84): the
consecutive boundary pairs. -/
def segments (text : String) (spans : List Span) : List (Nat × Nat) :=
  (boundaries text spans).zip (boundaries text spans).tail

/-- Python string slice `text[start:end]` for nonnegative indices: clamps
silently at the text bounds, and is empty when start ≥ end. -/
def pySlice (text : String) (s e : Nat) : String :=
  String.mk ((text.data.drop s).take (e - s))

/-- Line 85: the labels of the spans that fully contain the segment,
`span['start'] <= start and span['end'] >= end`, as a duplicate-free list
(Python builds a set; only membership and cardinality matter to the
claims, not the set's iteration order). -/
def labelsFor (spans : List Span) (s e : Nat) : List String :=
  ((spans.filter (fun sp => decide (sp.start ≤ s) && decide (e ≤ sp.«end»))).map Span.label).dedup

/-- Exact rational, modelling the float arithmetic of `colorblend`; kept
unnormalised, so all operations are plain integer arithmetic.  Every
denominator arising in `colorblend` is positive. -/
structure PyRat where
  num : Int
  den : Nat
deriving DecidableEq

def PyRat.add (a b : PyRat) : PyRat :=
  ⟨a.num * b.den + b.num * a.den, a.den * b.den⟩

def PyRat.mul (a b : PyRat) : PyRat := ⟨a.num * b.num, a.den * b.den⟩

/-- Comparison of exact rationals with positive denominators. -/
def PyRat.le (a b : PyRat) : Bool := decide (a.num * b.den ≤ b.num * a.den)

/-- Python `max(a, b)` (returns the first argument on ties). -/
def PyRat.max2 (a b : PyRat) : PyRat := if PyRat.le a b then b else a

/-- Python `min(a, b)`. -/
def PyRat.min2 (a b : PyRat) : PyRat := if PyRat.le a b then a else b

/-- Python `math.floor`. -/
def PyRat.floor (a : PyRat) : Int := a.num.fdiv a.den

/-- Value of a hex digit, as accepted by Python `int(_, 16)`. -/
def hexCharVal (c : Char) : Nat :=
  if 48 ≤ c.toNat && c.toNat ≤ 57 then c.toNat - 48
  else if 97 ≤ c.toNat && c.toNat ≤ 102 then c.toNat - 87
  else if 65 ≤ c.toNat && c.toNat ≤ 70 then c.toNat - 55
  else 0

/-- `int(clean_hex[i:i+2], 16)`. -/
def hexPairAt (l : List Char) (i : Nat) : Nat :=
  16 * hexCharVal (l.getD i '0') + hexCharVal (l.getD (i + 1) '0')

/-- `hex_to_rgb` (main.py lines 133–135). -/
def hex_to_rgb (h : String) : Nat × Nat × Nat :=
  let clean := h.data.filter (fun c => !(c == '#'))
  (hexPairAt clean 0, hexPairAt clean 2, hexPairAt clean 4)

/-- Lowercase hex digits, as produced by Python `"{0:x}".format`. -/
def hexDigitChar (n : Nat) : Char := "0123456789abcdef".data.getD n '0'

/-- Python `"{0:x}".format(v)` on the clamped channel range 0–255. -/
def intToHexStr (v : Nat) : String :=
  if v < 16 then String.mk [hexDigitChar v]
  else String.mk [hexDigitChar (v / 16), hexDigitChar (v % 16)]

/-- One byte of `rgb_to_hex` (main.py lines 147–150): zero-padded to two
hex digits. -/
def byteToHex (v : Nat) : String :=
  if v < 16 then "0" ++ intToHexStr v else intToHexStr v

/-- `rgb_to_hex` (main.py lines 147–150). -/
def rgb_to_hex (rgb : Nat × Nat × Nat) : String :=
  "#" ++ byteToHex rgb.1 ++ byteToHex rgb.2.1 ++ byteToHex rgb.2.2

/-- Tuple indexing `rgb[channel]` for channels 0, 1, 2. -/
def chan (rgb : Nat × Nat × Nat) : Nat → Nat
  | 0 => rgb.1
  | 1 => rgb.2.1
  | _ => rgb.2.2

/-- `blend_channel` (main.py lines 143–145): alpha-weighted channel sum,
clamped to [0,255] and rounded half-up via `math.floor(x + 0.5)`. -/
def blend_channel (alphas : List PyRat) (rgb_colors : List (Nat × Nat × Nat))
    (channel : Nat) : Nat :=
  let s := ((alphas.zip rgb_colors).map
    (fun p => p.1.mul ⟨chan p.2 channel, 1⟩)).foldl PyRat.add ⟨0, 1⟩
  ((PyRat.min2 (PyRat.max2 ⟨0, 1⟩ s) ⟨255, 1⟩).add ⟨1, 2⟩).floor.toNat

/-- `alphas = alphas or [1/n for _ in rgb_colors]` (main.py line 141): a
missing or empty alpha list becomes the uniform weights `1/n`. -/
def cbAlphas (rgb_colors : List (Nat × Nat × Nat)) (alphas : Option (List PyRat)) :
    List PyRat :=
  match alphas with
  | none => rgb_colors.map (fun _ => (⟨1, rgb_colors.length⟩ : PyRat))
  | some [] => rgb_colors.map (fun _ => (⟨1, rgb_colors.length⟩ : PyRat))
  | some a => a

/-- `colorblend` (main.py lines 138–152). -/
def colorblend (hexcolors : List String) (alphas : Option (List PyRat)) : String :=
  let rgb_colors := hexcolors.map hex_to_rgb
  let alphas2 := cbAlphas rgb_colors alphas
  rgb_to_hex (blend_channel alphas2 rgb_colors 0, blend_channel alphas2 rgb_colors 1,
    blend_channel alphas2 rgb_colors 2)

/-- Python `",".join(l)`. -/
def joinComma : List String → String
  | [] => ""
  | [s] => s
  | s :: rest => s ++ "," ++ joinComma rest

/-- Python `"".join(l)`. -/
def joinAll : List String → String
  | [] => ""
  | s :: rest => s ++ joinAll rest

/-- The body of the per-segment loop (main.py lines 84–105): an unlabelled
segment passes its raw slice through; otherwise the slice is wrapped in
Markdown emphasis (with an optional `_labels` suffix), a blended `mark`
element, or per-character rainbow `mark` elements. -/
def renderSegment (text : String) (spans : List Span) (cm : List (String × String))
    (rainbow to_markdown with_labels : Bool) (s e : Nat) : String :=
  let labs := labelsFor spans s e
  if labs.isEmpty then pySlice text s e
  else
    let colors_for_span := labs.map (fun lab => (cm.lookup lab).getD "")
    let hovertext := joinComma labs
    if to_markdown then
      let label_str := if with_labels then "_" ++ hovertext else ""
      "\\****" ++ pySlice text s e ++ label_str ++ "***\\*"
    else
      let tooltip := if with_labels then " title=\"" ++ hovertext ++ "\"" else ""
      if !rainbow then
        "<mark style=\"background-color:" ++ colorblend colors_for_span none ++ "66\""
          ++ tooltip ++ ";>" ++ pySlice text s e ++ "</mark>"
      else
        joinAll ((pySlice text s e).data.mapIdx (fun i c =>
          "<mark style=\"background-color:"
            ++ colors_for_span.getD (i % colors_for_span.length) "" ++ "66\""
            ++ tooltip ++ "\"" ++ ";>" ++ String.mk [c] ++ "</mark>"))

/-- `render_spans` after normalisation (main.py lines 73–108), over
canonical spans: update the colormap, cut the text at all span boundaries
and concatenate the per-segment markup in boundary order. -/
def render_core (text : String) (spans : List Span) (colormap : List (String × String))
    (rainbow to_markdown with_labels : Bool) : String :=
  let cm := update_colormap colormap spans
  joinAll ((segments text spans).map
    (fun p => renderSegment text spans cm rainbow to_markdown with_labels p.1 p.2))

/-- The full `render_spans` pipeline on a raw span list: normalise, read
the canonical fields, render; failures propagate to the caller. -/
def render_spans (text : String) (rawSpans : List PyVal) (colormap : List (String × String))
    (rainbow to_markdown with_labels : Bool) : Except String String := do
  let std ← standardize_spans rawSpans
  let spans ← std.2.mapM toSpan
  .ok (render_core text spans colormap rainbow to_markdown with_labels)

/-- One step of the tag-stripping state machine: inside a tag until the
next `>`, outside until the next `<`. -/
def tagStep (st : Bool) (c : Char) : Bool := if st then !(c == '>') else c == '<'

/-- State of the tag-stripping machine after reading l. -/
def tagState (st : Bool) (l : List Char) : Bool := l.foldl tagStep st

/-- Tag stripping: drop every region between a `<` and the next `>`. -/
def stripTagsAux : Bool → List Char → List Char
  | _, [] => []
  | false, c :: rest =>
      if c == '<' then stripTagsAux true rest else c :: stripTagsAux false rest
  | true, c :: rest =>
      if c == '>' then stripTagsAux false rest else stripTagsAux true rest

/-- Remove all HTML tags from a rendered string. -/
def stripTags (s : String) : String := String.mk (stripTagsAux false s.data)

/-- Remove all Markdown emphasis markers (`*` and the escaping backslash)
from a rendered string. -/
def stripMd (s : String) : String :=
  String.mk (s.data.filter (fun c => !(c == '*') && !(c == '\\')))

/-! ### Properties of the boundary list and its consecutive pairs -/

theorem boundaries_sorted (text : String) (spans : List Span) :
    List.Sorted (· ≤ ·) (boundaries text spans) :=
  List.sorted_insertionSort _ _

theorem boundaries_nodup (text : String) (spans : List Span) :
    (boundaries text spans).Nodup :=
  (List.perm_insertionSort _ _).nodup_iff.mpr (List.nodup_dedup _)

theorem boundaries_sorted_lt (text : String) (spans : List Span) :
    List.Sorted (· < ·) (boundaries text spans) :=
  (boundaries_sorted text spans).lt_of_le (boundaries_nodup text spans)

theorem mem_boundaries_iff (text : String) (spans : List Span) (x : Nat) :
    x ∈ boundaries text spans ↔
      x ∈ 0 :: text.length :: spans.foldr (fun sp acc => sp.start :: sp.«end» :: acc) [] := by
  unfold boundaries
  rw [(List.perm_insertionSort _ _).mem_iff, List.mem_dedup]

theorem zero_mem_boundaries (text : String) (spans : List Span) :
    0 ∈ boundaries text spans :=
  (mem_boundaries_iff text spans 0).mpr (List.mem_cons_self _ _)

theorem length_mem_boundaries (text : String) (spans : List Span) :
    text.length ∈ boundaries text spans :=
  (mem_boundaries_iff text spans _).mpr
    (List.mem_cons_of_mem _ (List.mem_cons_self _ _))

/-- Both components of a consecutive pair are boundary values. -/
theorem zip_tail_mem : ∀ (bs : List Nat) (p : Nat × Nat),
    p ∈ bs.zip bs.tail → p.1 ∈ bs ∧ p.2 ∈ bs
  | [], p, h => by simp at h
  | [x], p, h => by simp at h
  | x :: y :: r, p, h => by
    rw [List.tail_cons, List.zip_cons_cons] at h
    rcases List.mem_cons.mp h with h | h
    · subst h
      exact ⟨List.mem_cons_self _ _, List.mem_cons_of_mem _ (List.mem_cons_self _ _)⟩
    · have hmem := zip_tail_mem (y :: r) p (by rwa [List.tail_cons])
      exact ⟨List.mem_cons_of_mem _ hmem.1, List.mem_cons_of_mem _ hmem.2⟩

/-- With strictly sorted boundaries, every consecutive pair is a genuine
nonempty interval. -/
theorem zip_tail_lt {bs : List Nat} (hs : List.Sorted (· < ·) bs) :
    ∀ p ∈ bs.zip bs.tail, p.1 < p.2 := by
  induction bs with
  | nil => simp
  | cons x rest ih =>
    cases rest with
    | nil => simp
    | cons y r =>
      intro p hp
      rw [List.tail_cons, List.zip_cons_cons] at hp
      rcases List.mem_cons.mp hp with h | h
      · subst h
        exact (List.sorted_cons.mp hs).1 y (List.mem_cons_self _ _)
      · exact ih (List.sorted_cons.mp hs).2 p (by rwa [List.tail_cons])

/-- Consecutive boundary pairs are mutually non-overlapping, in order. -/
theorem zip_tail_pairwise {bs : List Nat} (hs : List.Sorted (· < ·) bs) :
    List.Pairwise (fun p q : Nat × Nat => p.2 ≤ q.1) (bs.zip bs.tail) := by
  induction bs with
  | nil => simp
  | cons x rest ih =>
    cases rest with
    | nil => simp
    | cons y r =>
      rw [List.tail_cons, List.zip_cons_cons]
      refine List.Pairwise.cons ?_ ?_
      · intro q hq
        have hq1 : q.1 ∈ y :: r := (zip_tail_mem (y :: r) q (by rwa [List.tail_cons])).1
        rcases List.mem_cons.mp hq1 with h | h
        · exact le_of_eq h.symm
        · exact le_of_lt ((List.sorted_cons.mp (List.sorted_cons.mp hs).2).1 q.1 h)
      · exact ih (List.sorted_cons.mp hs).2

theorem segment_lt {text : String} {spans : List Span} {p : Nat × Nat}
    (hp : p ∈ segments text spans) : p.1 < p.2 :=
  zip_tail_lt (boundaries_sorted_lt text spans) p hp

/-! ### Adjacent slices concatenate -/

theorem pySlice_data (text : String) (s e : Nat) :
    (pySlice text s e).data = (text.data.drop s).take (e - s) := rfl

theorem pySlice_append (text : String) {a b c : Nat} (h1 : a ≤ b) (h2 : b ≤ c) :
    pySlice text a b ++ pySlice text b c = pySlice text a c := by
  apply String.ext
  rw [String.data_append, pySlice_data, pySlice_data, pySlice_data]
  have hc : c - a = (b - a) + (c - b) := by omega
  have hd : List.drop b text.data = List.drop (b - a) (List.drop a text.data) := by
    rw [List.drop_drop]
    congr 1
    omega
  rw [hc, List.take_add, hd]

theorem joinAll_nil : joinAll [] = "" := rfl

theorem joinAll_cons (s : String) (rest : List String) :
    joinAll (s :: rest) = s ++ joinAll rest := rfl

theorem joinAll_data (l : List String) :
    (joinAll l).data = (l.map String.data).flatten := by
  induction l with
  | nil => rfl
  | cons s rest ih =>
    rw [joinAll_cons, String.data_append, ih]
    rfl

theorem chain_le_getLast : ∀ {r : List Nat} {x : Nat}, List.Chain (· ≤ ·) x r →
    x ≤ (x :: r).getLast (List.cons_ne_nil x r)
  | [], x, _ => by simp
  | y :: r2, x, h => by
    rcases List.chain_cons.mp h with ⟨hxy, hrest⟩
    rw [List.getLast_cons (List.cons_ne_nil y r2)]
    exact le_trans hxy (chain_le_getLast hrest)

/-- Concatenating the slices over consecutive pairs of a weakly increasing
list gives the slice from its first to its last element. -/
theorem joinAll_slices_zip (text : String) :
    ∀ (r : List Nat) (x : Nat), List.Chain (· ≤ ·) x r →
    joinAll (((x :: r).zip r).map (fun p => pySlice text p.1 p.2)) =
      pySlice text x ((x :: r).getLast (List.cons_ne_nil x r))
  | [], x, _ => by
    simp [joinAll, pySlice]
  | y :: r2, x, h => by
    rcases List.chain_cons.mp h with ⟨hxy, hrest⟩
    rw [List.zip_cons_cons, List.map_cons, joinAll_cons,
      joinAll_slices_zip text r2 y hrest,
      List.getLast_cons (List.cons_ne_nil y r2)]
    exact pySlice_append text hxy (chain_le_getLast hrest)

theorem sorted_le_getLast : ∀ {l : List Nat} (hne : l ≠ []),
    List.Sorted (· ≤ ·) l → ∀ {a : Nat}, a ∈ l → a ≤ l.getLast hne
  | [], hne, _, _, _ => absurd rfl hne
  | [y], _, _, a, ha => by
    simp at ha
    simp [ha, List.getLast]
  | y :: y2 :: r, _, hs, a, ha => by
    rw [List.getLast_cons (List.cons_ne_nil y2 r)]
    rcases List.mem_cons.mp ha with h | h
    · subst h
      exact (List.sorted_cons.mp hs).1 _ (List.getLast_mem _)
    · exact sorted_le_getLast (List.cons_ne_nil y2 r) (List.sorted_cons.mp hs).2 h

/-- The segment slices concatenate to the whole text, for every canonical
span list: the boundary list always contains 0 and len(text), and Python
slicing clamps any boundary beyond the end of the text. -/
theorem concat_slices (text : String) (spans : List Span) :
    joinAll ((segments text spans).map (fun p => pySlice text p.1 p.2)) = text := by
  obtain ⟨x, r, hbs⟩ : ∃ x r, boundaries text spans = x :: r := by
    cases hb : boundaries text spans with
    | nil =>
      have h0 := zero_mem_boundaries text spans
      rw [hb] at h0
      exact absurd h0 (List.not_mem_nil 0)
    | cons a l => exact ⟨a, l, rfl⟩
  have hsorted := boundaries_sorted text spans
  rw [hbs] at hsorted
  have hx0 : x = 0 := by
    have h0 := zero_mem_boundaries text spans
    rw [hbs] at h0
    rcases List.mem_cons.mp h0 with h | h
    · exact h.symm
    · exact Nat.le_zero.mp ((List.sorted_cons.mp hsorted).1 0 h)
  subst hx0
  have hchain : List.Chain (· ≤ ·) 0 r := List.chain_iff_pairwise.mpr hsorted
  have hlast : text.length ≤ (0 :: r).getLast (List.cons_ne_nil 0 r) := by
    have hlen := length_mem_boundaries text spans
    rw [hbs] at hlen
    exact sorted_le_getLast _ hsorted hlen
  unfold segments
  rw [hbs, List.tail_cons, joinAll_slices_zip text r 0 hchain]
  apply String.ext
  rw [pySlice_data, Nat.sub_zero, List.drop_zero]
  exact List.take_of_length_le hlast

/-- C1: for spans whose offsets satisfy 0 ≤ start ≤ end ≤ len(text), the
consecutive boundary pairs computed by render_spans are non-overlapping
and the concatenation of their raw slices rebuilds the text exactly. -/
theorem render_segments_partition (text : String) (spans : List Span)
    (h : ∀ sp ∈ spans, sp.start ≤ sp.«end» ∧ sp.«end» ≤ text.length) :
    List.Pairwise (fun p q : Nat × Nat => p.2 ≤ q.1) (segments text spans) ∧
      joinAll ((segments text spans).map (fun p => pySlice text p.1 p.2)) = text :=
  ⟨zip_tail_pairwise (boundaries_sorted_lt text spans), concat_slices text spans⟩

theorem render_segments_partition_witness :
    (∀ sp ∈ [Span.mk 1 3 "A", Span.mk 2 4 "B"],
        sp.start ≤ sp.«end» ∧ sp.«end» ≤ ("abcde" : String).length) ∧
    (List.Pairwise (fun p q : Nat × Nat => p.2 ≤ q.1)
        (segments "abcde" [Span.mk 1 3 "A", Span.mk 2 4 "B"]) ∧
      joinAll ((segments "abcde" [Span.mk 1 3 "A", Span.mk 2 4 "B"]).map
        (fun p => pySlice "abcde" p.1 p.2)) = "abcde") :=
  ⟨by decide, render_segments_partition "abcde" [Span.mk 1 3 "A", Span.mk 2 4 "B"] (by decide)⟩

/-- C2: when the spans are pairwise non-overlapping as half-open ranges,
the active label set of every segment has at most one element. -/
theorem nonoverlap_label_set_le_one (text : String) (spans : List Span)
    (hno : List.Pairwise
      (fun s1 s2 : Span => min s1.«end» s2.«end» ≤ max s1.start s2.start) spans)
    {p : Nat × Nat} (hp : p ∈ segments text spans) :
    (labelsFor spans p.1 p.2).length ≤ 1 := by
  have hlt : p.1 < p.2 := segment_lt hp
  have hfil : (spans.filter
      (fun sp => decide (sp.start ≤ p.1) && decide (p.2 ≤ sp.«end»))).length ≤ 1 := by
    cases hfl : spans.filter
        (fun sp => decide (sp.start ≤ p.1) && decide (p.2 ≤ sp.«end»)) with
    | nil => simp
    | cons a t =>
      cases t with
      | nil => simp
      | cons b t2 =>
        exfalso
        have hpw : List.Pairwise
            (fun s1 s2 : Span => min s1.«end» s2.«end» ≤ max s1.start s2.start)
            (spans.filter
              (fun sp => decide (sp.start ≤ p.1) && decide (p.2 ≤ sp.«end»))) :=
          List.Pairwise.sublist (List.filter_sublist spans) hno
        rw [hfl] at hpw
        have hab := (List.pairwise_cons.mp hpw).1 b (List.mem_cons_self _ _)
        have hamem : a ∈ spans.filter
            (fun sp => decide (sp.start ≤ p.1) && decide (p.2 ≤ sp.«end»)) := by
          rw [hfl]; exact List.mem_cons_self _ _
        have hbmem : b ∈ spans.filter
            (fun sp => decide (sp.start ≤ p.1) && decide (p.2 ≤ sp.«end»)) := by
          rw [hfl]; exact List.mem_cons_of_mem _ (List.mem_cons_self _ _)
        have ha := List.of_mem_filter hamem
        have hb := List.of_mem_filter hbmem
        simp only [Bool.and_eq_true, decide_eq_true_eq] at ha hb
        have h1 : p.2 ≤ min a.«end» b.«end» := le_min ha.2 hb.2
        have h2 : max a.start b.start ≤ p.1 := max_le ha.1 hb.1
        omega
  calc (labelsFor spans p.1 p.2).length
      ≤ ((spans.filter
          (fun sp => decide (sp.start ≤ p.1) && decide (p.2 ≤ sp.«end»))).map
            Span.label).length :=
        (List.dedup_sublist _).length_le
    _ ≤ 1 := by
        rw [List.length_map]
        exact hfil

theorem nonoverlap_label_set_le_one_witness :
    List.Pairwise
      (fun s1 s2 : Span => min s1.«end» s2.«end» ≤ max s1.start s2.start)
      [Span.mk 1 2 "A", Span.mk 3 4 "B"] ∧
    (1, 2) ∈ segments "abcde" [Span.mk 1 2 "A", Span.mk 3 4 "B"] ∧
    (labelsFor [Span.mk 1 2 "A", Span.mk 3 4 "B"] 1 2).length ≤ 1 :=
  ⟨by decide, by decide,
    @nonoverlap_label_set_le_one "abcde" [Span.mk 1 2 "A", Span.mk 3 4 "B"]
      (by decide) (1, 2) (by decide)⟩

/-- C10: a zero-length span (start = end) never satisfies the containment
test `span.start ≤ start and span.end ≥ end` for any rendered segment:
consecutive deduplicated boundaries always give start < end, so such a
span is excluded from every segment's filtered span list and contributes
its label to no active label set. -/
theorem empty_span_contributes_nothing (text : String) (spans : List Span)
    {sp : Span} (hmem : sp ∈ spans) (hz : sp.start = sp.«end»)
    {p : Nat × Nat} (hp : p ∈ segments text spans) :
    ¬(sp.start ≤ p.1 ∧ sp.«end» ≥ p.2) ∧
      sp ∉ spans.filter
        (fun q => decide (q.start ≤ p.1) && decide (p.2 ≤ q.«end»)) := by
  have hlt : p.1 < p.2 := segment_lt hp
  constructor
  · omega
  · intro hsp
    have := List.of_mem_filter hsp
    simp only [Bool.and_eq_true, decide_eq_true_eq] at this
    omega

theorem empty_span_contributes_nothing_witness :
    Span.mk 2 2 "Z" ∈ [Span.mk 0 4 "A", Span.mk 2 2 "Z"] ∧
    (Span.mk 2 2 "Z").start = (Span.mk 2 2 "Z").«end» ∧
    (2, 4) ∈ segments "abcd" [Span.mk 0 4 "A", Span.mk 2 2 "Z"] ∧
    (¬((Span.mk 2 2 "Z").start ≤ 2 ∧ (Span.mk 2 2 "Z").«end» ≥ 4) ∧
      Span.mk 2 2 "Z" ∉ [Span.mk 0 4 "A", Span.mk 2 2 "Z"].filter
        (fun q => decide (q.start ≤ 2) && decide (4 ≤ q.«end»))) :=
  ⟨by decide, by decide, by decide,
    @empty_span_contributes_nothing "abcd" [Span.mk 0 4 "A", Span.mk 2 2 "Z"]
      (Span.mk 2 2 "Z") (by decide) (by decide) (2, 4) (by decide)⟩

/-! ### The colormap allocator -/

theorem lookup_append_some {l1 l2 : List (String × String)} {k v : String}
    (h : l1.lookup k = some v) : (l1 ++ l2).lookup k = some v := by
  induction l1 with
  | nil => simp [List.lookup] at h
  | cons p t ih =>
    obtain ⟨a, b⟩ := p
    cases hk : (k == a) with
    | true =>
      simp only [List.cons_append, List.lookup, hk] at h ⊢
      exact h
    | false =>
      simp only [List.cons_append, List.lookup, hk] at h ⊢
      exact ih h

theorem lookup_append_none {l1 l2 : List (String × String)} {k : String}
    (h : l1.lookup k = none) : (l1 ++ l2).lookup k = l2.lookup k := by
  induction l1 with
  | nil => rfl
  | cons p t ih =>
    obtain ⟨a, b⟩ := p
    cases hk : (k == a) with
    | true =>
      simp only [List.lookup, hk] at h
      exact Option.noConfusion h
    | false =>
      simp only [List.cons_append, List.lookup, hk] at h ⊢
      exact ih h

theorem cmStep_preserves {cm : List (String × String)} {k v lab : String}
    (h : cm.lookup k = some v) : (cmStep cm lab).lookup k = some v := by
  unfold cmStep
  by_cases hs : (cm.lookup lab).isSome
  · rwa [if_pos hs]
  · rw [if_neg hs]
    exact lookup_append_some h

theorem cmStep_preserves_isSome {cm : List (String × String)} {k : String} (lab : String)
    (h : (cm.lookup k).isSome = true) : ((cmStep cm lab).lookup k).isSome = true := by
  obtain ⟨v, hv⟩ := Option.isSome_iff_exists.mp h
  rw [cmStep_preserves hv]
  rfl

theorem cmStep_mem (cm : List (String × String)) (lab : String) :
    ((cmStep cm lab).lookup lab).isSome = true := by
  unfold cmStep
  by_cases hs : (cm.lookup lab).isSome
  · rwa [if_pos hs]
  · rw [if_neg hs, lookup_append_none (Option.not_isSome_iff_eq_none.mp hs)]
    simp [List.lookup]

theorem foldl_cmStep_preserves : ∀ (labs : List String) (cm : List (String × String))
    {k v : String}, cm.lookup k = some v → (labs.foldl cmStep cm).lookup k = some v
  | [], _, _, _, h => h
  | _ :: rest, cm, _, _, h => foldl_cmStep_preserves rest _ (cmStep_preserves h)

theorem foldl_cmStep_preserves_isSome : ∀ (labs : List String) (cm : List (String × String))
    {k : String}, (cm.lookup k).isSome = true →
    ((labs.foldl cmStep cm).lookup k).isSome = true
  | [], _, _, h => h
  | lab :: rest, cm, _, h =>
    foldl_cmStep_preserves_isSome rest _ (cmStep_preserves_isSome lab h)

theorem foldl_cmStep_mem : ∀ (labs : List String) (cm : List (String × String))
    {lab : String}, lab ∈ labs → ((labs.foldl cmStep cm).lookup lab).isSome = true
  | [], _, _, h => absurd h (List.not_mem_nil _)
  | l0 :: rest, cm, lab, h => by
    rcases List.mem_cons.mp h with h | h
    · subst h
      exact foldl_cmStep_preserves_isSome rest _ (cmStep_mem cm lab)
    · exact foldl_cmStep_mem rest _ h

theorem mem_sortedLabels_iff (spans : List Span) (lab : String) :
    lab ∈ sortedLabels spans ↔ lab ∈ spans.map Span.label := by
  unfold sortedLabels
  rw [(List.perm_insertionSort _ _).mem_iff, List.mem_dedup]

/-- C3: after `update_colormap`, every label occurring in the spans has an
entry, and no pre-existing entry is changed (the map is append-only; the
sorted visiting order and the `(size mod 10)` palette rule are the
definition of `sortedLabels` and `cmStep`). -/
theorem update_colormap_spec (colormap : List (String × String)) (spans : List Span) :
    (∀ sp ∈ spans, ((update_colormap colormap spans).lookup sp.label).isSome = true) ∧
    (∀ k v : String, colormap.lookup k = some v →
      (update_colormap colormap spans).lookup k = some v) := by
  constructor
  · intro sp hsp
    exact foldl_cmStep_mem _ _
      ((mem_sortedLabels_iff spans sp.label).mpr (List.mem_map_of_mem Span.label hsp))
  · intro k v h
    exact foldl_cmStep_preserves _ _ h

theorem update_colormap_spec_witness :
    ((update_colormap [("X", "#123456")] [Span.mk 0 2 "A"]).lookup "A").isSome = true ∧
    (update_colormap [("X", "#123456")] [Span.mk 0 2 "A"]).lookup "X" = some "#123456" :=
  ⟨(update_colormap_spec [("X", "#123456")] [Span.mk 0 2 "A"]).1
      (Span.mk 0 2 "A") (List.mem_cons_self _ _),
    (update_colormap_spec [("X", "#123456")] [Span.mk 0 2 "A"]).2
      "X" "#123456" (by decide)⟩

/-! ### The string order used for label sorting -/

theorem charListLe_total : ∀ (a b : List Char), charListLe a b = true ∨ charListLe b a = true
  | [], _ => Or.inl rfl
  | _ :: _, [] => Or.inr rfl
  | a :: as, b :: bs => by
    by_cases h1 : a.toNat < b.toNat
    · unfold charListLe
      simp [h1]
    · by_cases h2 : b.toNat < a.toNat
      · unfold charListLe
        simp [h2]
      · have hrec := charListLe_total as bs
        unfold charListLe
        simp [h1, h2]
        exact hrec

theorem charListLe_trans : ∀ {a b c : List Char},
    charListLe a b = true → charListLe b c = true → charListLe a c = true
  | [], _, _, _, _ => rfl
  | _ :: _, [], _, h1, _ => by simp [charListLe] at h1
  | _ :: _, _ :: _, [], _, h2 => by simp [charListLe] at h2
  | a :: as, b :: bs, c :: cs, h1, h2 => by
    unfold charListLe at h1 h2 ⊢
    by_cases hab : a.toNat < b.toNat
    · by_cases hbc : b.toNat < c.toNat
      · simp [Nat.lt_trans hab hbc]
      · by_cases hcb : c.toNat < b.toNat
        · simp [hbc, hcb] at h2
        · have hac : a.toNat < c.toNat := by omega
          simp [hac]
    · by_cases hba : b.toNat < a.toNat
      · simp [hab, hba] at h1
      · by_cases hbc : b.toNat < c.toNat
        · have hac : a.toNat < c.toNat := by omega
          simp [hac]
        · by_cases hcb : c.toNat < b.toNat
          · simp [hbc, hcb] at h2
          · have hac1 : ¬a.toNat < c.toNat := by omega
            have hac2 : ¬c.toNat < a.toNat := by omega
            simp [hab, hba] at h1
            simp [hbc, hcb] at h2
            simp [hac1, hac2]
            exact charListLe_trans h1 h2

theorem charListLe_antisymm : ∀ {a b : List Char},
    charListLe a b = true → charListLe b a = true → a = b
  | [], [], _, _ => rfl
  | [], _ :: _, _, h2 => by simp [charListLe] at h2
  | _ :: _, [], h1, _ => by simp [charListLe] at h1
  | a :: as, b :: bs, h1, h2 => by
    unfold charListLe at h1 h2
    by_cases hab : a.toNat < b.toNat
    · simp [hab, Nat.lt_asymm hab] at h2
    · by_cases hba : b.toNat < a.toNat
      · simp [hab, hba] at h1
      · simp [hab, hba] at h1 h2
        have hn : a.toNat = b.toNat := by omega
        have hc : a = b := by
          have hx := congrArg Char.ofNat hn
          rwa [Char.ofNat_toNat, Char.ofNat_toNat] at hx
        rw [hc, charListLe_antisymm h1 h2]

theorem strLe_total (a b : String) : strLe a b = true ∨ strLe b a = true :=
  charListLe_total a.data b.data

theorem strLe_trans {a b c : String} (h1 : strLe a b = true) (h2 : strLe b c = true) :
    strLe a c = true :=
  charListLe_trans h1 h2

theorem strLe_antisymm {a b : String} (h1 : strLe a b = true) (h2 : strLe b a = true) :
    a = b :=
  String.ext (charListLe_antisymm h1 h2)

theorem sortedLabels_eq_of_mem_iff {spans1 spans2 : List Span}
    (h : ∀ lab : String, lab ∈ spans1.map Span.label ↔ lab ∈ spans2.map Span.label) :
    sortedLabels spans1 = sortedLabels spans2 := by
  haveI : IsTrans String (fun a b => strLe a b = true) :=
    ⟨fun _ _ _ => strLe_trans⟩
  haveI : IsTotal String (fun a b => strLe a b = true) := ⟨strLe_total⟩
  haveI : IsAntisymm String (fun a b => strLe a b = true) :=
    ⟨fun _ _ => strLe_antisymm⟩
  refine List.eq_of_perm_of_sorted ?_ (List.sorted_insertionSort _ _)
    (List.sorted_insertionSort _ _)
  refine (List.perm_ext_iff_of_nodup ?_ ?_).mpr ?_
  · exact (List.perm_insertionSort _ _).nodup_iff.mpr (List.nodup_dedup _)
  · exact (List.perm_insertionSort _ _).nodup_iff.mpr (List.nodup_dedup _)
  · intro a
    rw [mem_sortedLabels_iff, mem_sortedLabels_iff]
    exact h a

/-- C5: the color allocator is deterministic in the label set — two span
lists carrying the same distinct labels, in any order, update equal
colormaps identically. -/
theorem update_colormap_deterministic (colormap : List (String × String))
    (spans1 spans2 : List Span)
    (h : ∀ lab : String, lab ∈ spans1.map Span.label ↔ lab ∈ spans2.map Span.label) :
    update_colormap colormap spans1 = update_colormap colormap spans2 := by
  unfold update_colormap
  rw [sortedLabels_eq_of_mem_iff h]

theorem update_colormap_deterministic_witness :
    update_colormap [] [Span.mk 0 1 "B", Span.mk 1 2 "A"]
      = update_colormap [] [Span.mk 5 6 "A", Span.mk 0 1 "B"] :=
  update_colormap_deterministic [] [Span.mk 0 1 "B", Span.mk 1 2 "A"]
    [Span.mk 5 6 "A", Span.mk 0 1 "B"]
    (by
      intro lab
      simp only [List.map_cons, List.map_nil, List.mem_cons, List.not_mem_nil, or_false]
      tauto)

/-! ### The color blender's pinned value -/

/-- C6: blending #000000 and #ffffff with the default equal weights gives
per channel floor((0 + 255)/2 + 0.5) = floor(128.0) = 128, so the result
is exactly "#808080" (not the #7f7f7f of the spec bullet's initial
value). -/
theorem colorblend_black_white :
    colorblend ["#000000", "#ffffff"] none = "#808080" ∧
    blend_channel [⟨1, 2⟩, ⟨1, 2⟩] [(0, 0, 0), (255, 255, 255)] 0 = 128 := by
  decide

/-! ### Behaviour of the normaliser: errors, labels, mutation -/

theorem bind_ok {α β : Type} (a : α) (f : α → Except String β) :
    (Except.ok a >>= f) = f a := rfl

theorem bind_error {α β : Type} (msg : String) (f : α → Except String β) :
    ((Except.error msg : Except String α) >>= f) = Except.error msg := rfl

theorem bind_err_isOk {α β : Type} (e : Except String α) (f : α → Except String β)
    (h : e.isOk = false) : (e >>= f).isOk = false := by
  cases e with
  | error msg => rfl
  | ok a => exact Bool.noConfusion h

theorem standardizeOne_err {n : Nat} {v : PyVal} (hshape : recognizedShape v = false)
    (hne : v ≠ .str "") : (standardizeOne n v).isOk = false := by
  cases v with
  | int m => rfl
  | list items => exact absurd hshape (by simp [recognizedShape])
  | str s =>
    have hs : ¬s.data.isEmpty = true := by
      intro hx
      apply hne
      have hdata : s.data = [] := by
        cases hd : s.data with
        | nil => rfl
        | cons c r =>
          rw [hd] at hx
          exact Bool.noConfusion hx
      exact congrArg PyVal.str (String.ext hdata)
    simp only [standardizeOne]
    by_cases hc : containsChars "start".data s.data = true
    · rw [if_pos hc]
      rfl
    · rw [if_neg hc, if_neg hs]
      rfl
  | dict d =>
    simp only [recognizedShape, Bool.or_eq_false_iff] at hshape
    have h2 : d.lookup "subspans" = none := by
      apply Option.not_isSome_iff_eq_none.mp
      simp [hshape.2]
    simp only [standardizeOne]
    rw [if_neg (by rw [hshape.1]; exact Bool.false_ne_true), h2]
    rfl

theorem standardizeFrom_err : ∀ (raw : List PyVal) (n : Nat) {v : PyVal},
    v ∈ raw → recognizedShape v = false → v ≠ .str "" →
    (standardizeFrom n raw).isOk = false
  | [], _, _, hv, _, _ => absurd hv (List.not_mem_nil _)
  | w :: rest, n, v, hv, hshape, hne => by
    unfold standardizeFrom
    rcases List.mem_cons.mp hv with h | h
    · subst h
      exact bind_err_isOk _ _ (standardizeOne_err hshape hne)
    · cases hso : standardizeOne n w with
      | error e => rfl
      | ok pr =>
        rw [bind_ok]
        exact bind_err_isOk _ _ (standardizeFrom_err rest (n + 1) h hshape hne)

/-- C7 amended: `standardize_spans` fails (and the whole record aborts with
no partial output) whenever some element matches none of the recognised
shapes, except for the silently accepted degenerate empty iterable (the
empty string, whose zero-iteration loop yields nothing); and offsets
beyond the text length are not validated at all — see the counterexample
theorem for both accepted cases. -/
theorem standardize_unrecognized_shape_fails (raw : List PyVal) (v : PyVal)
    (hv : v ∈ raw) (hshape : recognizedShape v = false) (hne : v ≠ .str "") :
    (standardize_spans raw).isOk = false :=
  standardizeFrom_err raw 0 hv hshape hne

theorem standardize_unrecognized_shape_fails_witness :
    PyVal.int 7 ∈ [PyVal.int 7] ∧
    recognizedShape (PyVal.int 7) = false ∧
    (standardize_spans [PyVal.int 7]).isOk = false :=
  ⟨List.mem_cons_self _ _, rfl,
    standardize_unrecognized_shape_fails [PyVal.int 7] (PyVal.int 7)
      (List.mem_cons_self _ _) rfl (fun h => PyVal.noConfusion h)⟩

/-- C7 counterexample, both halves of the claim: a span whose end offset
(5) exceeds the length of the text "ab" (2) is accepted unchanged by
`standardize_spans` and the full `render_spans` pipeline succeeds on it —
no failure is raised for out-of-range offsets; and the empty string, an
element matching none of the recognised shapes, is accepted as well (its
iteration yields nothing), so the shape half is not unconditional
either. -/
theorem standardize_oob_counterexample :
    (standardize_spans [.dict [("start", .int 0), ("end", .int 5), ("label", .str "A")]]
      = .ok ([.dict [("start", .int 0), ("end", .int 5), ("label", .str "A")]],
             [.dict [("start", .int 0), ("end", .int 5), ("label", .str "A")]]) ∧
    (render_spans "ab" [.dict [("start", .int 0), ("end", .int 5), ("label", .str "A")]]
        [] false false true).isOk = true ∧
    ("ab" : String).length < 5) ∧
    (standardize_spans [.str ""] = .ok ([.str ""], []) ∧
      recognizedShape (.str "") = false ∧
      (render_spans "ab" [.str ""] [] false false true).isOk = true) :=
  ⟨⟨rfl, by decide, by decide⟩, rfl, rfl, by decide⟩

/-- C8: the claim that every canonical label is a string is broken by the
code: in `{'label': str(subspan.get('label', label)), **subspan}` the
`**subspan` unpacking overrides the coerced string, so a subspan carrying
the integer label 5 yields a canonical span whose label is still the
integer 5.  The dead `str(...)` call shows the coercion was intended. -/
theorem subspan_label_not_string :
    standardize_spans
        [.dict [("subspans",
          .list [.dict [("start", .int 0), ("end", .int 1), ("label", .int 5)]])]]
      = .ok ([.dict [("subspans",
            .list [.dict [("start", .int 0), ("end", .int 1), ("label", .int 5)]])]],
             [.dict [("label", .int 5), ("start", .int 0), ("end", .int 1)]]) ∧
    ([(("label" : String), PyVal.int 5), ("start", PyVal.int 0),
        ("end", PyVal.int 1)].lookup "label" = some (PyVal.int 5) ∧
      ∀ s : String, PyVal.int 5 ≠ PyVal.str s) :=
  ⟨rfl, rfl, fun s h => PyVal.noConfusion h⟩

theorem standardizeOne_post {n : Nat} {v : PyVal} {pr : PyVal × List PyVal}
    (h : standardizeOne n v = .ok pr) : pr.1 = mutateOne n v := by
  cases v with
  | int m => exact Except.noConfusion h
  | str s =>
    simp only [standardizeOne] at h
    by_cases hc : containsChars "start".data s.data = true
    · rw [if_pos hc] at h
      exact Except.noConfusion h
    · rw [if_neg hc] at h
      by_cases he : s.data.isEmpty = true
      · rw [if_pos he] at h
        injection h with h2
        rw [← h2]
        rfl
      · rw [if_neg he] at h
        exact Except.noConfusion h
  | dict d =>
    simp only [standardizeOne] at h
    simp only [mutateOne]
    by_cases hs : (d.lookup "start").isSome = true
    · rw [if_pos hs] at h
      rw [if_pos hs]
      injection h with h2
      rw [← h2]
    · rw [if_neg hs] at h
      rw [if_neg hs]
      cases hsub : d.lookup "subspans" with
      | none =>
        rw [hsub] at h
        exact Except.noConfusion h
      | some sv =>
        rw [hsub] at h
        replace h : ((iterSubspans (.str (pyStr ((d.lookup "label").getD (.int n)))) sv)
            >>= fun outs => Except.ok (PyVal.dict d, outs)) = Except.ok pr := h
        cases hm : iterSubspans (.str (pyStr ((d.lookup "label").getD (.int n)))) sv with
        | error e =>
          rw [hm, bind_error] at h
          exact Except.noConfusion h
        | ok outs =>
          rw [hm, bind_ok] at h
          injection h with h2
          rw [← h2]
  | list items =>
    simp only [standardizeOne] at h
    simp only [mutateOne]
    by_cases hc : (items.any
        (fun v => match v with | .str s => s == "start" | _ => false)) = true
    · rw [if_pos hc] at h
      exact Except.noConfusion h
    · rw [if_neg hc] at h
      cases hm : items.mapM (subspanToDict (.int n)) with
      | error e =>
        rw [hm, bind_error] at h
        exact Except.noConfusion h
      | ok outs =>
        rw [hm, bind_ok] at h
        injection h with h2
        rw [← h2]

theorem standardizeFrom_post : ∀ (raw : List PyVal) (n : Nat) {post out : List PyVal},
    standardizeFrom n raw = .ok (post, out) → post = enumMutate n raw
  | [], n, post, out, h => by
    unfold standardizeFrom at h
    simp only [Except.ok.injEq, Prod.mk.injEq] at h
    rw [← h.1]
    rfl
  | w :: rest, n, post, out, h => by
    unfold standardizeFrom at h
    cases hso : standardizeOne n w with
    | error e =>
      rw [hso, bind_error] at h
      exact Except.noConfusion h
    | ok pr =>
      rw [hso, bind_ok] at h
      cases hsf : standardizeFrom (n + 1) rest with
      | error e =>
        rw [hsf, bind_error] at h
        exact Except.noConfusion h
      | ok pr2 =>
        obtain ⟨p2, o2⟩ := pr2
        rw [hsf, bind_ok] at h
        simp only [Except.ok.injEq, Prod.mk.injEq] at h
        rw [← h.1]
        unfold enumMutate
        rw [standardizeOne_post hso, standardizeFrom_post rest (n + 1) hsf]

theorem filter_nonlabel_map (d : List (String × PyVal)) (x : PyVal) :
    (d.map (fun p => if p.1 = "label" then ("label", x) else p)).filter
        (fun p => !(p.1 == "label"))
      = d.filter (fun p => !(p.1 == "label")) := by
  induction d with
  | nil => rfl
  | cons p t ih =>
    obtain ⟨a, b⟩ := p
    by_cases ha : a = "label"
    · subst ha
      simp [List.filter, ih]
    · simp [List.filter, List.map, ha, ih]

theorem nonLabel_dictSet (d : List (String × PyVal)) (x : PyVal) :
    (dictSet d "label" x).filter (fun p => !(p.1 == "label"))
      = d.filter (fun p => !(p.1 == "label")) := by
  unfold dictSet
  by_cases hs : (d.lookup "label").isSome = true
  · rw [if_pos hs]
    exact filter_nonlabel_map d x
  · rw [if_neg hs, List.filter_append]
    simp [List.filter]

theorem mutateOne_nonlabel (n : Nat) (v : PyVal) :
    nonLabelFields (mutateOne n v) = nonLabelFields v := by
  cases v with
  | int m => rfl
  | str s => rfl
  | list l => rfl
  | dict d =>
    simp only [mutateOne]
    by_cases hs : (d.lookup "start").isSome = true
    · rw [if_pos hs]
      simp only [nonLabelFields]
      rw [nonLabel_dictSet]
    · rw [if_neg hs]

/-- C9 amended: in this embedding the renderer is a function of its
arguments (so equal inputs give equal markup), but it is not free of side
effects on the spans: on every successful run, the post-call state of the
raw span list is `enumMutate`, which sets the label field of each dict
carrying a start key to its coerced string and provably changes no other
field and no other element. -/
theorem standardize_effect_only_labels (raw : List PyVal) (post out : List PyVal)
    (h : standardize_spans raw = .ok (post, out)) :
    post = enumMutate 0 raw ∧
      ∀ (n : Nat) (v : PyVal), nonLabelFields (mutateOne n v) = nonLabelFields v :=
  ⟨standardizeFrom_post raw 0 h, fun n v => mutateOne_nonlabel n v⟩

theorem standardize_effect_only_labels_witness :
    enumMutate 0 [PyVal.dict [("start", .int 0), ("end", .int 1)]]
      = [PyVal.dict [("start", .int 0), ("end", .int 1), ("label", .str "0")]] ∧
    [PyVal.dict [("start", .int 0), ("end", .int 1), ("label", .str "0")]]
      = enumMutate 0 [PyVal.dict [("start", .int 0), ("end", .int 1)]] :=
  ⟨rfl,
    (standardize_effect_only_labels [PyVal.dict [("start", .int 0), ("end", .int 1)]]
      [PyVal.dict [("start", .int 0), ("end", .int 1), ("label", .str "0")]]
      [PyVal.dict [("start", .int 0), ("end", .int 1), ("label", .str "0")]] rfl).1⟩

/-- C9 counterexample: rendering a direct span dict that has no label
mutates the caller's span object — after the call it carries a new label
field "0", so the input span collection is not left unchanged. -/
theorem render_mutates_spans_counterexample :
    standardize_spans [.dict [("start", .int 0), ("end", .int 1)]]
      = .ok ([.dict [("start", .int 0), ("end", .int 1), ("label", .str "0")]],
             [.dict [("start", .int 0), ("end", .int 1), ("label", .str "0")]]) ∧
    PyVal.dict [("start", .int 0), ("end", .int 1), ("label", .str "0")]
      ≠ PyVal.dict [("start", .int 0), ("end", .int 1)] :=
  ⟨rfl, by simp⟩

/-! ### Tag stripping machinery -/

theorem tagState_append (st : Bool) (a b : List Char) :
    tagState st (a ++ b) = tagState (tagState st a) b :=
  List.foldl_append _ _ _ _

theorem tagState_cons (st : Bool) (c : Char) (l : List Char) :
    tagState st (c :: l) = tagState (tagStep st c) l := rfl

theorem strip_false_cons (c : Char) (l : List Char) :
    stripTagsAux false (c :: l)
      = if c == '<' then stripTagsAux true l else c :: stripTagsAux false l := rfl

theorem strip_true_cons (c : Char) (l : List Char) :
    stripTagsAux true (c :: l)
      = if c == '>' then stripTagsAux false l else stripTagsAux true l := rfl

theorem stripTagsAux_append : ∀ (a : List Char) (st : Bool) (b : List Char),
    stripTagsAux st (a ++ b) = stripTagsAux st a ++ stripTagsAux (tagState st a) b
  | [], st, _ => by cases st <;> rfl
  | c :: rest, st, b => by
    cases st with
    | false =>
      rw [List.cons_append, strip_false_cons, strip_false_cons, tagState_cons,
        show tagStep false c = (c == '<') from rfl]
      by_cases hc : (c == '<') = true
      · rw [if_pos hc, if_pos hc, hc, stripTagsAux_append rest true b]
      · have hcf : (c == '<') = false := by
          revert hc
          cases (c == '<') <;> simp
        rw [if_neg hc, if_neg hc, hcf, stripTagsAux_append rest false b,
          List.cons_append]
    | true =>
      rw [List.cons_append, strip_true_cons, strip_true_cons, tagState_cons,
        show tagStep true c = !(c == '>') from rfl]
      by_cases hc : (c == '>') = true
      · rw [if_pos hc, if_pos hc, hc, Bool.not_true, stripTagsAux_append rest false b]
      · have hcf : (c == '>') = false := by
          revert hc
          cases (c == '>') <;> simp
        rw [if_neg hc, if_neg hc, hcf, Bool.not_false, stripTagsAux_append rest true b]

/-- A tag-free block passes through the stripper unchanged and leaves the
machine outside a tag. -/
theorem strip_no_lt : ∀ {l : List Char}, (∀ c ∈ l, ¬c = '<') →
    stripTagsAux false l = l ∧ tagState false l = false
  | [], _ => ⟨rfl, rfl⟩
  | c :: rest, h => by
    have hc : (c == '<') = false :=
      beq_eq_false_iff_ne.mpr (h c (List.mem_cons_self _ _))
    have ih := strip_no_lt (fun x hx => h x (List.mem_cons_of_mem _ hx))
    constructor
    · rw [strip_false_cons, if_neg (by rw [hc]; exact Bool.false_ne_true), ih.1]
    · rw [tagState_cons, show tagStep false c = (c == '<') from rfl, hc]
      exact ih.2

/-- Inside a tag, a block without `>` is swallowed whole. -/
theorem strip_no_gt : ∀ {l : List Char}, (∀ c ∈ l, ¬c = '>') →
    stripTagsAux true l = [] ∧ tagState true l = true
  | [], _ => ⟨rfl, rfl⟩
  | c :: rest, h => by
    have hc : (c == '>') = false :=
      beq_eq_false_iff_ne.mpr (h c (List.mem_cons_self _ _))
    have ih := strip_no_gt (fun x hx => h x (List.mem_cons_of_mem _ hx))
    constructor
    · rw [strip_true_cons, if_neg (by rw [hc]; exact Bool.false_ne_true), ih.1]
    · rw [tagState_cons, show tagStep true c = !(c == '>') from rfl, hc, Bool.not_false]
      exact ih.2

/-- Stripping a complete `mark` element (as emitted by the renderer, in
blend or rainbow shape) recovers exactly its inner text, provided the tag
attributes contain no `>` and the inner text no `<`. -/
theorem strip_mark_pieces (color tool ex inner : List Char)
    (hcol : ∀ c ∈ color, ¬c = '>') (htool : ∀ c ∈ tool, ¬c = '>')
    (hex : ∀ c ∈ ex, ¬c = '>') (hin : ∀ c ∈ inner, ¬c = '<') :
    stripTagsAux false ("<mark style=\"background-color:".data ++ (color
        ++ ("66\"".data ++ (tool ++ (ex ++ (";>".data
        ++ (inner ++ "</mark>".data))))))) = inner ∧
    tagState false ("<mark style=\"background-color:".data ++ (color
        ++ ("66\"".data ++ (tool ++ (ex ++ (";>".data
        ++ (inner ++ "</mark>".data))))))) = false := by
  have e1 : stripTagsAux false "<mark style=\"background-color:".data = [] := by decide
  have s1 : tagState false "<mark style=\"background-color:".data = true := by decide
  have e2 : stripTagsAux true "66\"".data = [] := by decide
  have s2 : tagState true "66\"".data = true := by decide
  have e3 : stripTagsAux true ";>".data = [] := by decide
  have s3 : tagState true ";>".data = false := by decide
  have e4 : stripTagsAux false "</mark>".data = [] := by decide
  have s4 : tagState false "</mark>".data = false := by decide
  have ecol := strip_no_gt hcol
  have etool := strip_no_gt htool
  have eex := strip_no_gt hex
  have ein := strip_no_lt hin
  constructor
  · rw [stripTagsAux_append, e1, s1, List.nil_append,
      stripTagsAux_append, ecol.1, ecol.2, List.nil_append,
      stripTagsAux_append, e2, s2, List.nil_append,
      stripTagsAux_append, etool.1, etool.2, List.nil_append,
      stripTagsAux_append, eex.1, eex.2, List.nil_append,
      stripTagsAux_append, e3, s3, List.nil_append,
      stripTagsAux_append, ein.1, ein.2, e4, List.append_nil]
  · rw [tagState_append, s1, tagState_append, ecol.2, tagState_append, s2,
      tagState_append, etool.2, tagState_append, eex.2, tagState_append, s3,
      tagState_append, ein.2, s4]

theorem strip_joinAll : ∀ (ss : List String),
    (∀ s ∈ ss, tagState false s.data = false) →
    stripTagsAux false (joinAll ss).data
      = (ss.map (fun s => stripTagsAux false s.data)).flatten
  | [], _ => rfl
  | s :: rest, h => by
    rw [joinAll_cons, String.data_append, stripTagsAux_append,
      h s (List.mem_cons_self _ _),
      strip_joinAll rest (fun x hx => h x (List.mem_cons_of_mem _ hx))]
    rfl

theorem strip_join_mapIdx : ∀ (l : List Char) (f : Nat → Char → String),
    (∀ i, ∀ c ∈ l, tagState false (f i c).data = false) →
    (∀ i, ∀ c ∈ l, stripTagsAux false (f i c).data = [c]) →
    stripTagsAux false (joinAll (l.mapIdx f)).data = l ∧
      tagState false (joinAll (l.mapIdx f)).data = false
  | [], _, _, _ => ⟨rfl, rfl⟩
  | c :: rest, f, hstate, hstrip => by
    have ih := strip_join_mapIdx rest (fun i => f (i + 1))
      (fun i c2 hc2 => hstate (i + 1) c2 (List.mem_cons_of_mem _ hc2))
      (fun i c2 hc2 => hstrip (i + 1) c2 (List.mem_cons_of_mem _ hc2))
    rw [List.mapIdx_cons, joinAll_cons, String.data_append]
    exact ⟨by
        rw [stripTagsAux_append, hstrip 0 c (List.mem_cons_self _ _),
          hstate 0 c (List.mem_cons_self _ _), ih.1, List.singleton_append],
      by rw [tagState_append, hstate 0 c (List.mem_cons_self _ _), ih.2]⟩

theorem stripMd_data (s : String) :
    (stripMd s).data = s.data.filter (fun c => !(c == '*') && !(c == '\\')) := rfl

theorem stripMd_joinAll : ∀ (ss : List String),
    (stripMd (joinAll ss)).data = (ss.map (fun s => (stripMd s).data)).flatten
  | [] => rfl
  | s :: rest => by
    rw [joinAll_cons, stripMd_data, String.data_append, List.filter_append,
      List.map_cons, List.flatten_cons, ← stripMd_data, ← stripMd_joinAll rest,
      stripMd_data (joinAll rest)]

/-! ### Character-set facts about the renderer's building blocks -/

theorem getD_mem_or {α : Type} (l : List α) (n : Nat) (d : α) :
    l.getD n d ∈ l ∨ l.getD n d = d := by
  rcases Nat.lt_or_ge n l.length with h | h
  · left
    rw [List.getD_eq_getElem?_getD, List.getElem?_eq_getElem h]
    exact List.getElem_mem h
  · right
    exact List.getD_eq_default _ _ h

theorem lookup_val_mem : ∀ {l : List (String × String)} {k v : String},
    l.lookup k = some v → ∃ p ∈ l, p.2 = v
  | [], _, _, h => absurd h (by simp [List.lookup])
  | p :: t, k, v, h => by
    obtain ⟨a, b⟩ := p
    cases hk : (k == a) with
    | true =>
      simp only [List.lookup, hk] at h
      injection h with h2
      exact ⟨(a, b), List.mem_cons_self _ _, h2⟩
    | false =>
      simp only [List.lookup, hk] at h
      obtain ⟨q, hq, hv⟩ := lookup_val_mem h
      exact ⟨q, List.mem_cons_of_mem _ hq, hv⟩

theorem cmStep_values {P : String → Prop} (hP : ∀ c ∈ tab10, P c) (hP0 : P "")
    {cm : List (String × String)} (lab : String) (hcm : ∀ p ∈ cm, P p.2) :
    ∀ p ∈ cmStep cm lab, P p.2 := by
  unfold cmStep
  by_cases hs : (cm.lookup lab).isSome = true
  · rw [if_pos hs]
    exact hcm
  · rw [if_neg hs]
    intro p hp
    rcases List.mem_append.mp hp with h | h
    · exact hcm p h
    · have hp2 : p = (lab, tab10.getD (cm.length % tab10.length) "") := by
        simpa using h
      subst hp2
      rcases getD_mem_or tab10 (cm.length % tab10.length) "" with hm | hm
      · exact hP _ hm
      · rw [hm]
        exact hP0

theorem foldl_cmStep_values {P : String → Prop} (hP : ∀ c ∈ tab10, P c) (hP0 : P "") :
    ∀ (labs : List String) (cm : List (String × String)),
    (∀ p ∈ cm, P p.2) → ∀ p ∈ labs.foldl cmStep cm, P p.2
  | [], _, hcm => hcm
  | lab :: rest, cm, hcm =>
    foldl_cmStep_values hP hP0 rest _ (cmStep_values hP hP0 lab hcm)

theorem update_colormap_values {P : String → Prop} (hP : ∀ c ∈ tab10, P c) (hP0 : P "")
    {cm : List (String × String)} (hcm : ∀ p ∈ cm, P p.2) (spans : List Span) :
    ∀ p ∈ update_colormap cm spans, P p.2 :=
  foldl_cmStep_values hP hP0 _ cm hcm

theorem pySlice_sub {text : String} {s e : Nat} :
    ∀ c ∈ (pySlice text s e).data, c ∈ text.data :=
  fun _ hc => List.mem_of_mem_drop (List.mem_of_mem_take hc)

theorem joinComma_chars : ∀ (l : List String) (c : Char), c ∈ (joinComma l).data →
    c = ',' ∨ ∃ s ∈ l, c ∈ s.data
  | [], c, h => absurd h (List.not_mem_nil c)
  | [s], c, h => Or.inr ⟨s, List.mem_cons_self _ _, h⟩
  | s :: s2 :: rest, c, h => by
    rw [show joinComma (s :: s2 :: rest) = s ++ "," ++ joinComma (s2 :: rest) from rfl]
      at h
    simp only [String.data_append, List.mem_append] at h
    rcases h with (h | h) | h
    · exact Or.inr ⟨s, List.mem_cons_self _ _, h⟩
    · left
      simpa using h
    · rcases joinComma_chars (s2 :: rest) c h with h | ⟨t, ht, hc⟩
      · exact Or.inl h
      · exact Or.inr ⟨t, List.mem_cons_of_mem _ ht, hc⟩

theorem labelsFor_mem {spans : List Span} {s e : Nat} {lab : String}
    (h : lab ∈ labelsFor spans s e) : ∃ sp ∈ spans, sp.label = lab := by
  unfold labelsFor at h
  rw [List.mem_dedup] at h
  obtain ⟨sp, hsp, hl⟩ := List.mem_map.mp h
  exact ⟨sp, List.mem_of_mem_filter hsp, hl⟩

theorem hexDigitChar_ne_gt (n : Nat) : ¬hexDigitChar n = '>' := by
  unfold hexDigitChar
  rcases getD_mem_or "0123456789abcdef".data n '0' with h | h
  · intro he
    rw [he] at h
    revert h
    decide
  · rw [h]
    decide

theorem byteToHex_chars (v : Nat) : ∀ c ∈ (byteToHex v).data, ¬c = '>' := by
  unfold byteToHex intToHexStr
  by_cases hv : v < 16
  · rw [if_pos hv, if_pos hv]
    intro c hc
    rw [String.data_append] at hc
    rcases List.mem_append.mp hc with h | h
    · intro he
      rw [he] at h
      revert h
      decide
    · have : c = hexDigitChar v := by simpa using h
      rw [this]
      exact hexDigitChar_ne_gt v
  · rw [if_neg hv, if_neg hv]
    intro c hc
    rcases (by simpa using hc : c = hexDigitChar (v / 16) ∨ c = hexDigitChar (v % 16))
        with h | h
    · rw [h]; exact hexDigitChar_ne_gt _
    · rw [h]; exact hexDigitChar_ne_gt _

theorem rgb_to_hex_chars (rgb : Nat × Nat × Nat) :
    ∀ c ∈ (rgb_to_hex rgb).data, ¬c = '>' := by
  intro c hc he
  subst he
  unfold rgb_to_hex at hc
  simp only [String.data_append, List.mem_append] at hc
  rcases hc with ((h | h) | h) | h
  · exact absurd h (by decide)
  · exact byteToHex_chars _ '>' h rfl
  · exact byteToHex_chars _ '>' h rfl
  · exact byteToHex_chars _ '>' h rfl

theorem colorblend_chars (l : List String) (a : Option (List PyRat)) :
    ∀ c ∈ (colorblend l a).data, ¬c = '>' :=
  rgb_to_hex_chars _

/-! ### Round trips per rendered segment -/

theorem renderSegment_html_strip (text : String) (spans : List Span)
    (cm : List (String × String)) (rb wl : Bool) (s e : Nat)
    (htext : ∀ c ∈ text.data, ¬c = '<')
    (hcmv : ∀ p ∈ cm, ∀ c ∈ p.2.data, ¬c = '>')
    (hlab : ∀ sp ∈ spans, ∀ c ∈ sp.label.data, ¬c = '>') :
    stripTagsAux false (renderSegment text spans cm rb false wl s e).data
        = (pySlice text s e).data ∧
    tagState false (renderSegment text spans cm rb false wl s e).data = false := by
  have hin : ∀ c ∈ (pySlice text s e).data, ¬c = '<' :=
    fun c hc => htext c (pySlice_sub c hc)
  have htool : ∀ c ∈ (if wl then " title=\"" ++ joinComma (labelsFor spans s e) ++ "\""
      else "").data, ¬c = '>' := by
    cases wl with
    | false => intro c hc; exact absurd hc (List.not_mem_nil c)
    | true =>
      intro c hc he
      subst he
      rw [if_pos rfl] at hc
      simp only [String.data_append, List.mem_append] at hc
      rcases hc with (h | h) | h
      · exact absurd h (by decide)
      · rcases joinComma_chars _ _ h with h2 | ⟨t, ht, hct⟩
        · exact absurd h2 (by decide)
        · obtain ⟨sp, hsp, hlt⟩ := labelsFor_mem ht
          exact hlab sp hsp '>' (by rw [hlt]; exact hct) rfl
      · exact absurd h (by decide)
  have hcols : ∀ x ∈ (labelsFor spans s e).map (fun lab => (cm.lookup lab).getD ""),
      ∀ c ∈ x.data, ¬c = '>' := by
    intro x hx
    obtain ⟨lab, hlabm, hval⟩ := List.mem_map.mp hx
    cases hl : cm.lookup lab with
    | none =>
      intro c hc
      rw [← hval, hl] at hc
      exact absurd hc (List.not_mem_nil c)
    | some v =>
      obtain ⟨p, hp, hpv⟩ := lookup_val_mem hl
      intro c hc
      refine hcmv p hp c ?_
      rw [hpv]
      rw [← hval, hl] at hc
      exact hc
  simp only [renderSegment]
  by_cases hemp : (labelsFor spans s e).isEmpty = true
  · rw [if_pos hemp]
    exact strip_no_lt hin
  · rw [if_neg hemp, if_neg Bool.false_ne_true]
    cases rb with
    | false =>
      rw [Bool.not_false, if_pos (Eq.refl true)]
      have hcb : ∀ c ∈ (colorblend ((labelsFor spans s e).map
          (fun lab => (cm.lookup lab).getD "")) none).data, ¬c = '>' :=
        colorblend_chars _ _
      constructor
      · simp only [String.data_append, List.append_assoc]
        exact (strip_mark_pieces _ _ [] _ hcb htool
          (fun c hc => absurd hc (List.not_mem_nil c)) hin).1
      · simp only [String.data_append, List.append_assoc]
        exact (strip_mark_pieces _ _ [] _ hcb htool
          (fun c hc => absurd hc (List.not_mem_nil c)) hin).2
    | true =>
      rw [Bool.not_true, if_neg Bool.false_ne_true]
      have hquote : ∀ ch ∈ ("\"" : String).data, ¬ch = '>' := by decide
      have hcoli : ∀ (i : Nat), ∀ ch ∈ (((labelsFor spans s e).map
          (fun lab => (cm.lookup lab).getD "")).getD
            (i % ((labelsFor spans s e).map
              (fun lab => (cm.lookup lab).getD "")).length) "").data, ¬ch = '>' := by
        intro i
        rcases getD_mem_or ((labelsFor spans s e).map
            (fun lab => (cm.lookup lab).getD ""))
            (i % ((labelsFor spans s e).map
              (fun lab => (cm.lookup lab).getD "")).length) "" with h | h
        · exact hcols _ h
        · rw [h]
          intro ch hch
          exact absurd hch (List.not_mem_nil ch)
      refine strip_join_mapIdx (pySlice text s e).data _ ?_ ?_
      · intro i c hc
        simp only [String.data_append, List.append_assoc]
        refine (strip_mark_pieces _ _ ("\"" : String).data ((String.mk [c]).data)
          (hcoli i) htool hquote ?_).2
        intro ch hch
        have hcc : ch = c := by simpa using hch
        subst hcc
        exact hin ch hc
      · intro i c hc
        simp only [String.data_append, List.append_assoc]
        refine (strip_mark_pieces _ _ ("\"" : String).data ((String.mk [c]).data)
          (hcoli i) htool hquote ?_).1
        intro ch hch
        have hcc : ch = c := by simpa using hch
        subst hcc
        exact hin ch hc

theorem renderSegment_md_strip (text : String) (spans : List Span)
    (cm : List (String × String)) (rb : Bool) (s e : Nat)
    (hstar : ∀ c ∈ text.data, (!(c == '*') && !(c == '\\')) = true) :
    (stripMd (renderSegment text spans cm rb true false s e)).data
      = (pySlice text s e).data := by
  have hslice : (pySlice text s e).data.filter (fun c => !(c == '*') && !(c == '\\'))
      = (pySlice text s e).data :=
    List.filter_eq_self.mpr (fun c hc => hstar c (pySlice_sub c hc))
  simp only [renderSegment]
  by_cases hemp : (labelsFor spans s e).isEmpty = true
  · rw [if_pos hemp, stripMd_data, hslice]
  · rw [if_neg hemp, if_pos trivial, if_neg Bool.false_ne_true]
    have h1 : "\\****".data.filter (fun c => !(c == '*') && !(c == '\\')) = [] := by
      decide
    have h2 : "***\\*".data.filter (fun c => !(c == '*') && !(c == '\\')) = [] := by
      decide
    rw [stripMd_data]
    simp only [String.data_append, List.filter_append, h1, h2, hslice,
      List.nil_append, List.append_nil, List.filter_nil]

theorem stripTags_data (s : String) :
    (stripTags s).data = stripTagsAux false s.data := rfl

/-- C4 amended: rendering then stripping recovers the text in both HTML
modes (blend and rainbow, labels on or off) for texts free of `<` whose
labels and supplied colormap values are free of `>`, and in Markdown mode
with labels disabled for texts free of `*` and `\`; with labels enabled,
Markdown rendering appends the `_`-prefixed label list inside the
emphasis, so stripping the emphasis markers does not recover the text
(see the counterexample). -/
theorem render_strip_roundtrip (text : String) (spans : List Span)
    (colormap : List (String × String)) (rb wl : Bool)
    (htext : ∀ c ∈ text.data, ¬c = '<')
    (hcm : ∀ p ∈ colormap, ∀ c ∈ p.2.data, ¬c = '>')
    (hlab : ∀ sp ∈ spans, ∀ c ∈ sp.label.data, ¬c = '>')
    (hmd : ∀ c ∈ text.data, (!(c == '*') && !(c == '\\')) = true) :
    stripTags (render_core text spans colormap rb false wl) = text ∧
    stripMd (render_core text spans colormap rb true false) = text := by
  have hcmv : ∀ p ∈ update_colormap colormap spans, ∀ c ∈ p.2.data, ¬c = '>' :=
    @update_colormap_values (fun v => ∀ c ∈ v.data, ¬c = '>')
      (by decide) (by decide) colormap hcm spans
  have hflat := congrArg String.data (concat_slices text spans)
  rw [joinAll_data, List.map_map] at hflat
  constructor
  · apply String.ext
    rw [stripTags_data]
    simp only [render_core]
    have hstates : ∀ snip ∈ (segments text spans).map
        (fun p => renderSegment text spans (update_colormap colormap spans)
          rb false wl p.1 p.2), tagState false snip.data = false := by
      intro snip hsnip
      obtain ⟨p, hp, hps⟩ := List.mem_map.mp hsnip
      rw [← hps]
      exact (renderSegment_html_strip text spans _ rb wl p.1 p.2 htext hcmv hlab).2
    rw [strip_joinAll _ hstates, List.map_map]
    have hmap2 : (segments text spans).map ((fun s => stripTagsAux false s.data) ∘
        (fun p => renderSegment text spans (update_colormap colormap spans)
          rb false wl p.1 p.2))
        = (segments text spans).map (fun p => (pySlice text p.1 p.2).data) :=
      List.map_congr_left (fun p hp =>
        (renderSegment_html_strip text spans _ rb wl p.1 p.2 htext hcmv hlab).1)
    rw [hmap2]
    exact hflat
  · apply String.ext
    simp only [render_core]
    rw [stripMd_joinAll, List.map_map]
    have hmap2 : (segments text spans).map ((fun s => (stripMd s).data) ∘
        (fun p => renderSegment text spans (update_colormap colormap spans)
          rb true false p.1 p.2))
        = (segments text spans).map (fun p => (pySlice text p.1 p.2).data) :=
      List.map_congr_left (fun p hp =>
        renderSegment_md_strip text spans _ rb p.1 p.2 hmd)
    rw [hmap2]
    exact hflat

theorem render_strip_roundtrip_witness :
    (∀ c ∈ ("abc" : String).data, ¬c = '<') ∧
    (∀ sp ∈ [Span.mk 1 2 "A"], ∀ c ∈ sp.label.data, ¬c = '>') ∧
    (stripTags (render_core "abc" [Span.mk 1 2 "A"] [] false false true) = "abc" ∧
      stripMd (render_core "abc" [Span.mk 1 2 "A"] [] false true false) = "abc") :=
  ⟨by decide, by decide,
    render_strip_roundtrip "abc" [Span.mk 1 2 "A"] [] false true
      (by decide) (by decide) (by decide) (by decide)⟩

/-- C4 counterexample: in Markdown mode with labels enabled (the default),
rendering "ab" with one span labelled "A" yields `\****ab_A***\*`;
stripping every emphasis marker leaves "ab_A", not the original text. -/
theorem md_labels_roundtrip_fails :
    stripMd (render_core "ab" [Span.mk 0 2 "A"] [] false true true) = "ab_A" ∧
    stripMd (render_core "ab" [Span.mk 0 2 "A"] [] false true true) ≠ "ab" :=
  ⟨by decide, by decide⟩

end Spanviz
